import Mathlib

/-!
# Verification of the meadowlark-core-types timing and parameter core

A shallow embedding, in Lean 4, of the data model and operations of the
`meadowlark-core-types` Rust crate (musical time units, the one-pole parameter
smoother, parameter curve mapping, and the packed-atomic time cell), together
with proofs and refutations of the specification claims about them.

Conventions used throughout:

* Rust `u32`/`u64` values are embedded as `Nat`.  Where the source can
  overflow or underflow a machine integer, the embedding reduces modulo
  `2^32`/`2^64` (release-mode wrapping semantics); the spots where debug
  builds would instead panic are noted in the doc comments.
* Rust `f32`/`f64` arithmetic is embedded over `ℚ` where only ordered-field
  operations and comparisons occur, and over `ℝ` where the source uses
  transcendental functions (`exp`, `powf`, `log2`).  Decimal float literals
  stand for their decimal values; binary-rounding discrepancies (relative
  error ≤ 2⁻²⁴) are immaterial to every statement proved here and noted where
  they arise.
* Fallible code (array indexing and machine-integer operations that can panic)
  is embedded with `Option`: `none` models a panic.
-/

namespace MeadowlarkCore

/-- `SUPER_UNITS` from `src/time.rs` (508,032,000): the number of super-beats
per beat and of super-frames per second. -/
def SUPER_UNITS : Nat := 508032000

/-- `2^32`, the modulus of Rust `u32` arithmetic. -/
def U32 : Nat := 4294967296

/-- `2^64`, the modulus of Rust `u64` arithmetic. -/
def U64 : Nat := 18446744073709551616

/-! ## MusicalTime (src/time.rs) -/

/-- `MusicalTime` from `src/time.rs`: a pair of `u32` fields
`(beats, super_beats)`.  The field documentation promises
`super_beats ∈ [0, SUPER_UNITS)`. -/
structure MusicalTime where
  beats : Nat
  super_beats : Nat
deriving DecidableEq, Repr

/-- `MusicalTime::new` (src/time.rs lines 134-139):
`super_beats` is clamped to `[0, SUPER_UNITS - 1]` with `min`. -/
def MusicalTime.new (beats super_beats : Nat) : MusicalTime :=
  ⟨beats, Min.min super_beats (SUPER_UNITS - 1)⟩

/-- The derived lexicographic `PartialOrd` strict `<` on `MusicalTime`
(`beats` first, then `super_beats`), as a `Bool`.  On this total order the
source's `self >= rhs` test is exactly `!(self < rhs)`. -/
def MusicalTime.ltb (a b : MusicalTime) : Bool :=
  a.beats < b.beats || (a.beats == b.beats && a.super_beats < b.super_beats)

/-- `MusicalTime::checked_sub` (src/time.rs lines 698-712).  The guarded
`u32` subtractions cannot underflow when both operands satisfy the
`super_beats < SUPER_UNITS` field invariant (with the invariant broken,
`SUPER_UNITS - (rhs.super_beats - self.super_beats)` is a `Nat` truncated
subtraction where Rust would panic in debug builds; the claims are stated
under the invariant). -/
def MusicalTime.checkedSub (self rhs : MusicalTime) : Option MusicalTime :=
  if MusicalTime.ltb self rhs then none
  else
    let beats := self.beats - rhs.beats
    if self.super_beats < rhs.super_beats then
      some ⟨beats - 1, SUPER_UNITS - (rhs.super_beats - self.super_beats)⟩
    else
      some ⟨beats, self.super_beats - rhs.super_beats⟩

/-- The total time denoted by a `MusicalTime`, measured in super-beats:
`beats * SUPER_UNITS + super_beats`. -/
def MusicalTime.totalSuperBeats (t : MusicalTime) : Nat :=
  t.beats * SUPER_UNITS + t.super_beats

/-- `impl Mul<u32> for MusicalTime` (src/time.rs lines 746-762), with
release-mode wrapping semantics: the `u32` products/sums and the `u64`
subtraction are reduced modulo `2^32` / `2^64`, and the final
`super_beats_u64 as u32` cast is a reduction modulo `2^32`.
(`u64::from(self.super_beats) * u64::from(rhs)` itself cannot exceed `2^64`.) -/
def MusicalTime.mul (self : MusicalTime) (rhs : Nat) : MusicalTime :=
  let beats := (self.beats * rhs) % U32
  let superBeatsU64 := (self.super_beats * rhs) % U64
  if SUPER_UNITS ≤ superBeatsU64 then
    let additionalBeats := superBeatsU64 % SUPER_UNITS
    let beats2 := (beats + additionalBeats % U32) % U32
    let superBeats2 := (superBeatsU64 + U64 - (additionalBeats * SUPER_UNITS) % U64) % U64
    ⟨beats2, superBeats2 % U32⟩
  else
    ⟨beats, superBeatsU64 % U32⟩

/-! ## SuperFrames (src/time.rs) -/

/-- `SuperFrames` from `src/time.rs`: a pair of `u32` fields
`(seconds, super_frames)`.  The field documentation promises
`super_frames ∈ [0, SUPER_UNITS)`. -/
structure SuperFrames where
  seconds : Nat
  super_frames : Nat
deriving DecidableEq, Repr

/-- The derived lexicographic `PartialOrd` strict `<` on `SuperFrames`. -/
def SuperFrames.ltb (a b : SuperFrames) : Bool :=
  a.seconds < b.seconds || (a.seconds == b.seconds && a.super_frames < b.super_frames)

/-- `SuperFrames::checked_sub` (src/time.rs lines 1510-1527); same structure
as `MusicalTime::checked_sub`. -/
def SuperFrames.checkedSub (self rhs : SuperFrames) : Option SuperFrames :=
  if SuperFrames.ltb self rhs then none
  else
    let seconds := self.seconds - rhs.seconds
    if self.super_frames < rhs.super_frames then
      some ⟨seconds - 1, SUPER_UNITS - (rhs.super_frames - self.super_frames)⟩
    else
      some ⟨seconds, self.super_frames - rhs.super_frames⟩

/-- The total time denoted by a `SuperFrames`, measured in super-frames. -/
def SuperFrames.totalSuperFrames (t : SuperFrames) : Nat :=
  t.seconds * SUPER_UNITS + t.super_frames

/-- `SuperFrames::from_frames_constant::<SR>` (src/time.rs lines 1393-1407),
the pure-integer path that `SuperFrames::from_frames` (lines 1417-1455)
dispatches to for the eight standard sample rates.  Release-mode wrapping
semantics: the `u64` subtraction `frames.0 - (seconds * SR)` wraps modulo
`2^64` (a debug build panics when `seconds * SR > frames`), the
`fract_seconds as u32` cast reduces modulo `2^32`, and the `u32`
multiplication by `SUPER_UNITS / SR` wraps modulo `2^32`.
Note the source computes `seconds = frames.0 % SR` (the remainder, not the
quotient `frames.0 / SR`). -/
def SuperFrames.fromFramesConstant (SR frames : Nat) : SuperFrames :=
  if frames < SR then
    ⟨0, ((frames % U32) * (SUPER_UNITS / SR)) % U32⟩
  else
    let seconds := frames % SR
    let fractSeconds := (frames + U64 - (seconds * SR) % U64) % U64
    ⟨seconds % U32, ((fractSeconds % U32) * (SUPER_UNITS / SR)) % U32⟩

/-- `SuperFrames::to_seconds` (src/time.rs lines 1462-1464), its `f64`
arithmetic embedded over `ℚ`:
`seconds as f64 + super_frames as f64 / SUPER_UNITS as f64`. -/
def SuperFrames.toSecondsQ (sf : SuperFrames) : ℚ :=
  (sf.seconds : ℚ) + (sf.super_frames : ℚ) / (SUPER_UNITS : ℚ)

/-- `Seconds::to_nearest_frame_round` (src/time.rs lines 816-822), its `f64`
arithmetic embedded over `ℚ`.  Rust `f64::round` rounds half away from zero,
which agrees with Mathlib `round` (round half up) on the nonnegative values
reachable here; the `as u64` cast of the nonnegative result is `Int.toNat`. -/
def secondsToNearestFrameRound (s sampleRate : ℚ) : Nat :=
  if 0 < s then (round (s * sampleRate)).toNat else 0

/-! ## Packed atomic time cell (src/atomic/atomic_time.rs) -/

/-- `u32::to_ne_bytes` on a little-endian target: the four bytes of a `u32`,
least significant first. -/
def u32ToNeBytes (v : Nat) : Nat × Nat × Nat × Nat :=
  (v % 256, v / 256 % 256, v / 65536 % 256, v / 16777216 % 256)

/-- `u32x2_to_u64` (src/atomic/atomic_time.rs lines 14-29): concatenates the
native-endian bytes of `v1` (low half) and `v2` (high half) and reads them
back as a `u64` (little-endian target). -/
def u32x2ToU64 (v1 v2 : Nat) : Nat :=
  let b := u32ToNeBytes v1
  let c := u32ToNeBytes v2
  b.1 + b.2.1 * 256 + b.2.2.1 * 65536 + b.2.2.2 * 16777216 +
    c.1 * 4294967296 + c.2.1 * 1099511627776 +
    c.2.2.1 * 281474976710656 + c.2.2.2 * 72057594037927936

/-- `u64_to_u32x2` (src/atomic/atomic_time.rs lines 31-37): splits the eight
native-endian bytes of a `u64` into two `u32`s (little-endian target). -/
def u64ToU32x2 (v : Nat) : Nat × Nat :=
  (v % 256 + v / 256 % 256 * 256 + v / 65536 % 256 * 65536 +
     v / 16777216 % 256 * 16777216,
   v / 4294967296 % 256 + v / 1099511627776 % 256 * 256 +
     v / 281474976710656 % 256 * 65536 + v / 72057594037927936 % 256 * 16777216)

/-- Modelled from the spec: the `MusicalTime` type consumed by
`src/atomic/atomic_time.rs` (with accessors `beats()` and `ticks()`, from the
crate's `time::musical_time` module) is not present under `src/`.  Per the
spec, `MusicalTime` is "a pair `(beats: u32, super_beats: u32)` with
`super_beats` constrained to `[0, SUPER_UNITS)`"; the tick field is the
sub-beat count. -/
structure MusicalTimeTk where
  beats : Nat
  ticks : Nat
deriving DecidableEq, Repr

/-- Modelled from the spec: the constructor constrains the sub-beat tick
count to `[0, SUPER_UNITS)` (as `MusicalTime::new` in `src/time.rs` does). -/
def MusicalTimeTk.new (beats ticks : Nat) : MusicalTimeTk :=
  ⟨beats, Min.min ticks (SUPER_UNITS - 1)⟩

/-- `AtomicMusicalTime::set` (src/atomic/atomic_time.rs lines 54-59): the
`AtomicU64` cell is modelled by its current `u64` contents; `set` stores
`u32x2_to_u64(beats, ticks)`. -/
def AtomicMusicalTime.set (musicalTime : MusicalTimeTk) : Nat :=
  u32x2ToU64 musicalTime.beats musicalTime.ticks

/-- `AtomicMusicalTime::get` (src/atomic/atomic_time.rs lines 48-51):
unpacks the loaded word and rebuilds a `MusicalTime` with `MusicalTime::new`. -/
def AtomicMusicalTime.get (word : Nat) : MusicalTimeTk :=
  let p := u64ToU32x2 word
  MusicalTimeTk.new p.1 p.2

/-- `AtomicMusicalTime::swap` (src/atomic/atomic_time.rs lines 63-71):
returns the unpacked previous value together with the newly stored word. -/
def AtomicMusicalTime.swap (musicalTime : MusicalTimeTk) (word : Nat) :
    MusicalTimeTk × Nat :=
  (AtomicMusicalTime.get word, AtomicMusicalTime.set musicalTime)

/-! ## The parameter smoother (src/smooth.rs)

`SmoothF32` and `SmoothF64` are textually identical up to the scalar type, so
they are embedded once, generically over a linear ordered field `α`
(instantiated at `ℚ` where only field operations and comparisons occur, and at
`ℝ` for `set_speed`, which uses `exp`).  The fixed `[T; MAX_BLOCKSIZE]` output
array is a list whose length plays the role of `MAX_BLOCKSIZE`. -/

/-- `SmoothStatus` (src/smooth.rs lines 17-22). -/
inductive SmoothStatus where
  | inactive
  | active
  | deactivating
deriving DecidableEq, Repr

/-- `SmoothF32`/`SmoothF64` (src/smooth.rs lines 53-62 and 199-208). -/
structure Smooth (α : Type) where
  output : List α
  input : α
  status : SmoothStatus
  a : α
  b : α
  lastOutput : α
deriving DecidableEq, Repr

variable {α : Type} [LinearOrderedField α]

/-- `SmoothF32::new` (src/smooth.rs lines 65-75): status `Inactive`, the whole
output block, `input` and `last_output` equal to the initial value, `a = 1`,
`b = 0`.  `len` is the `MAX_BLOCKSIZE` const generic. -/
def Smooth.new (len : Nat) (input : α) : Smooth α :=
  ⟨List.replicate len input, input, SmoothStatus.inactive, 1, 0, input⟩

/-- `SmoothF32::reset` (src/smooth.rs lines 77-83):
`Self { a, b, ..Self::new(val) }`. -/
def Smooth.reset (s : Smooth α) (val : α) : Smooth α :=
  { Smooth.new s.output.length val with a := s.a, b := s.b }

/-- `SmoothF32::set` (src/smooth.rs lines 85-88). -/
def Smooth.set (s : Smooth α) (val : α) : Smooth α :=
  { s with input := val, status := SmoothStatus.active }

/-- `SmoothF32::update_status_with_epsilon` (src/smooth.rs lines 105-122).
`none` models the panic of the `self.output[0]` read when the output block is
empty (`MAX_BLOCKSIZE = 0`); the source otherwise mutates in place and returns
the new status, embedded here as the whole successor state. -/
def Smooth.updateStatusWithEpsilon (s : Smooth α) (epsilon : α) : Option (Smooth α) :=
  match s.status with
  | SmoothStatus.active =>
    match s.output with
    | [] => none
    | o0 :: _ =>
      if |s.input - o0| < epsilon then
        some { s.reset s.input with status := SmoothStatus.deactivating }
      else
        some s
  | SmoothStatus.deactivating => some { s with status := SmoothStatus.inactive }
  | SmoothStatus.inactive => some s

/-- `SETTLE` (src/smooth.rs line 15): the decimal value of the literal
`0.00001f32`.  (The nearest binary32 to this decimal is about
`2.5 × 10⁻¹³` below it; the discrepancy is immaterial to every statement
proved here.)  `SmoothF64::update_status` uses the same constant, widened
(`SETTLE as f64`). -/
def SETTLE : ℚ := 1 / 100000

/-- `SmoothF32::update_status` / `SmoothF64::update_status`
(src/smooth.rs lines 152-154 and 298-300): both use the numeric value of
`SETTLE`. -/
def Smooth.updateStatus (s : Smooth α) : Option (Smooth α) :=
  s.updateStatusWithEpsilon ((SETTLE : ℚ) : α)

/-- `ProcFrames<MAX_BLOCKSIZE>` (src/time.rs lines 1104-1216): a wrapped
`usize` frame count.  The `MAX_BLOCKSIZE` const generic appears as an
argument of the operations that mention it. -/
structure ProcFrames where
  val : Nat
deriving DecidableEq, Repr

/-- `ProcFrames::new` (src/time.rs lines 1109-1111): clamps to
`[0, MAX_BLOCKSIZE]` with `min`. -/
def ProcFrames.new (maxBlocksize frames : Nat) : ProcFrames :=
  ⟨Min.min frames maxBlocksize⟩

/-- `ProcFrames::compiler_hint_frames` (src/time.rs lines 1142-1145):
`self.0.min(MAX_BLOCKSIZE)`. -/
def ProcFrames.compilerHintFrames (maxBlocksize : Nat) (procFrames : ProcFrames) : Nat :=
  Min.min procFrames.val maxBlocksize

/-- `impl From<usize> for ProcFrames` (src/time.rs lines 1212-1216): stores
the raw value without clamping. -/
def ProcFrames.fromUsize (s : Nat) : ProcFrames := ⟨s⟩

/-- The sequence of writes of the `SmoothF32::process` loop
(src/smooth.rs lines 130-136) with `inp = self.input * self.a` precomputed:
element `0` is `inp + prev * b` and each later element is
`inp + (previous element) * b`. -/
def ramp (inp b : α) : α → Nat → List α
  | _, 0 => []
  | prev, Nat.succ k => (inp + prev * b) :: ramp inp b (inp + prev * b) k

/-- `SmoothF32::process` (src/smooth.rs lines 124-139).  When the status is
not `Active` the call returns immediately.  Otherwise, with
`frames = proc_frames.compiler_hint_frames()`, the source writes
`output[0..frames]` and then reads `output[frames - 1]`; when `frames = 0`
that read (and, for `MAX_BLOCKSIZE = 0`, already the `output[0]` write)
panics — in debug via the `frames - 1` underflow, in release via the
out-of-bounds index — which `none` models.  Otherwise the written prefix is
the `ramp` list and `last_output` becomes its last element. -/
def Smooth.process (s : Smooth α) (procFrames : ProcFrames) : Option (Smooth α) :=
  if s.status ≠ SmoothStatus.active then some s
  else
    let frames := procFrames.compilerHintFrames s.output.length
    if frames = 0 then none
    else
      let ys := ramp (s.input * s.a) s.b s.lastOutput frames
      some { s with
        output := ys ++ s.output.drop frames,
        lastOutput := ys.getLastD s.lastOutput }

/-- `SmoothF32::set_speed` / `SmoothF64::set_speed` (src/smooth.rs lines
147-150 and 293-296): `b = exp(-1 / (seconds * sample_rate))`, `a = 1 - b`. -/
noncomputable def Smooth.setSpeed (s : Smooth ℝ) (sampleRate seconds : ℝ) : Smooth ℝ :=
  let b := Real.exp (-1 / (seconds * sampleRate))
  { s with b := b, a := 1 - b }

/-- `SmoothOutputF32`/`SmoothOutputF64` (src/smooth.rs lines 30-33):
the read-only view `{ values, status }` returned by `output()`. -/
structure SmoothOutput (α : Type) where
  values : List α
  status : SmoothStatus
deriving DecidableEq, Repr

/-- `SmoothF32::output` (src/smooth.rs lines 94-99). -/
def Smooth.outputView (s : Smooth α) : SmoothOutput α :=
  ⟨s.output, s.status⟩

/-! ## Parameters and curve mapping (src/parameter.rs) -/

/-- `Gradient` (src/parameter.rs lines 19-24). -/
inductive Gradient where
  | linear
  | power (exponent : ℝ)
  | exponential

/-- `Unit` (src/parameter.rs lines 35-39). -/
inductive Unit where
  | generic
  | decibels

/-- `normalized_to_value_f32` (src/parameter.rs lines 249-276; the `_f64`
version, lines 508-535, is identical up to precision), embedded over plain
`ℝ`: `powf` is `Real.rpow` and `log2` is `Real.logb 2`.  The source first
clamps `normalized` with `.min(1.0).max(0.0)` and special-cases the
`Exponential` endpoints.  This plain-real form is valid only on inputs where
the `f32` code computes finite values; it is used solely inside
`ParamF32.smoothedCall` (claim C8 never takes the branch that evaluates it).
The claim C6 statements use the NaN-tracking embedding `normalizedToValueN`
below, which is faithful also where the code produces `NaN`. -/
noncomputable def normalizedToValue (normalized min max : ℝ) (gradient : Gradient) : ℝ :=
  let n := Max.max (Min.min normalized 1) 0
  let range := max - min
  match gradient with
  | Gradient.linear => n * range + min
  | Gradient.power exponent => n ^ exponent * range + min
  | Gradient.exponential =>
    if n = 0 then min
    else if n = 1 then max
    else
      let minl := Real.logb 2 min
      let rangel := Real.logb 2 max - minl
      (2 : ℝ) ^ (n * rangel + minl)

/-- `value_to_normalized_f32` (src/parameter.rs lines 278-303; the `_f64`
version, lines 537-562, is identical up to precision), embedded over plain
`ℝ`.  The early returns clamp: `0` for `value <= min`, `1` for
`value >= max`.  As with `normalizedToValue`, this plain-real form is valid
only where the `f32` code computes finite values; the claim C6 statements
use the NaN-tracking `valueToNormalizedN` below. -/
noncomputable def valueToNormalized (value min max : ℝ) (gradient : Gradient) : ℝ :=
  if value ≤ min then 0
  else if max ≤ value then 1
  else
    let range := max - min
    match gradient with
    | Gradient.linear => (value - min) / range
    | Gradient.power exponent => ((value - min) / range) ^ (1 / exponent)
    | Gradient.exponential =>
      let minl := Real.logb 2 min
      let rangel := Real.logb 2 max - minl
      (Real.logb 2 value - minl) / rangel

/-- The domain on which the claimed curve inverse law actually holds: any
positive `Power` exponent (which covers the claimed `k ∈ {0.5, 2, 3}`), and,
for `Exponential`, a positive lower bound (the curve takes `log2 min`). -/
def gradientDomainOK (min : ℝ) : Gradient → Prop
  | Gradient.linear => True
  | Gradient.power exponent => 0 < exponent
  | Gradient.exponential => 0 < min

/-! ### NaN-tracking embedding of the curve functions

An `f32` intermediate value is embedded as `Option ℝ`: `some r` is the finite
value `r` (exact, as everywhere in this file), `none` is `NaN`.  The claims
need this because `value_to_normalized_f32` with the `Exponential` gradient
takes `log2 min`, which for a negative `min` is `NaN`, and that `NaN` then
flows through `normalized_to_value_f32`'s NaN-ignoring clamp.  The curve
functions' own `value`/`min`/`max` arguments are the caller's ordinary finite
inputs and stay plain `ℝ`. -/

/-- Lifted `f32` subtraction: a `NaN` operand (modelled `none`) makes the
result `NaN`. -/
noncomputable def subN : Option ℝ → Option ℝ → Option ℝ
  | some a, some b => some (a - b)
  | _, _ => none

/-- Lifted `f32` multiplication: a `NaN` operand makes the result `NaN`. -/
noncomputable def mulN : Option ℝ → Option ℝ → Option ℝ
  | some a, some b => some (a * b)
  | _, _ => none

/-- Lifted `f32` addition: a `NaN` operand makes the result `NaN`. -/
noncomputable def addN : Option ℝ → Option ℝ → Option ℝ
  | some a, some b => some (a + b)
  | _, _ => none

/-- Lifted `f32` division: a `NaN` operand makes the result `NaN`.  A zero
divisor gives a non-finite result in the code (`±∞`, or `NaN` for `0/0`),
modelled `none`; no statement below reaches a zero divisor. -/
noncomputable def divN : Option ℝ → Option ℝ → Option ℝ
  | some a, some b => if b = 0 then none else some (a / b)
  | _, _ => none

/-- `f32::min` with Rust's NaN-ignoring rule: "if one of the arguments is
NaN, then the other argument is returned". -/
noncomputable def minF : Option ℝ → Option ℝ → Option ℝ
  | none, b => b
  | a, none => a
  | some a, some b => some (Min.min a b)

/-- `f32::max` with the same NaN-ignoring rule as `f32::min`. -/
noncomputable def maxF : Option ℝ → Option ℝ → Option ℝ
  | none, b => b
  | a, none => a
  | some a, some b => some (Max.max a b)

/-- `f32::log2` on a finite input: `NaN` (`none`) for a negative argument.
For the argument `0` the code gives `-∞`, also embedded `none` here; no
statement below evaluates `log2N` at `0`. -/
noncomputable def log2N (x : ℝ) : Option ℝ :=
  if 0 < x then some (Real.logb 2 x) else none

/-- `f32::powf` with a possibly-NaN base and a finite exponent: a `NaN` base
propagates, and a negative base gives `NaN` (for an integral exponent `powf`
would instead be finite, and for base `0` with a negative exponent it would
be `+∞` — cases no statement below reaches: every base here lies in
`[0, 1]` and every exponent used is positive). -/
noncomputable def powN : Option ℝ → ℝ → Option ℝ
  | some a, e => if a < 0 then none else some (a ^ e)
  | none, _ => none

/-- `2.0f32.powf` on a possibly-NaN exponent (a finite real exponent gives a
finite positive power; float overflow to `∞` is ignored, as everywhere in
this embedding). -/
noncomputable def exp2N : Option ℝ → Option ℝ
  | some a => some ((2 : ℝ) ^ a)
  | none => none

/-- `value_to_normalized_f32` (src/parameter.rs lines 278-303) with `NaN`
tracked: same structure as `valueToNormalized`, but the `Exponential` branch
builds its result with the lifted operations, so a non-positive `min` (whose
`log2` is `NaN` in the code) yields `none` exactly where the code yields
`NaN`.  In the `else` branch `min < value < max`, so the plain division by
`range = max - min > 0` in the `Linear`/`Power` arms is finite.  (In the
`Power` arm, `1 / exponent` with `exponent = 0` is `∞` in the code and `0`
in Lean; every statement below has `0 < exponent`.) -/
noncomputable def valueToNormalizedN (value min max : ℝ) (gradient : Gradient) : Option ℝ :=
  if value ≤ min then some 0
  else if max ≤ value then some 1
  else
    let range := max - min
    match gradient with
    | Gradient.linear => some ((value - min) / range)
    | Gradient.power exponent => powN (some ((value - min) / range)) (1 / exponent)
    | Gradient.exponential =>
      let minl := log2N min
      let rangel := subN (log2N max) minl
      divN (subN (log2N value) minl) rangel

/-- `normalized_to_value_f32` (src/parameter.rs lines 249-276) with `NaN`
tracked: the incoming `normalized` value may be `NaN` (`none`) — it is the
value flowing back from `value_to_normalized_f32` in the round trip.  The
clamp `.min(1.0).max(0.0)` uses the NaN-ignoring `f32` `min`/`max`, so a
`NaN` input is clamped to `1.0` and the `Exponential` `normalized == 1.0`
endpoint case then returns `max` — exactly the code's behavior on the claim
C6 failing input.  The `==` comparisons against `0.0`/`1.0` are false for
`NaN`, which `none ≠ some _` matches. -/
noncomputable def normalizedToValueN (normalized : Option ℝ) (min max : ℝ)
    (gradient : Gradient) : Option ℝ :=
  let n := maxF (minF normalized (some 1)) (some 0)
  let range := max - min
  match gradient with
  | Gradient.linear => addN (mulN n (some range)) (some min)
  | Gradient.power exponent => addN (mulN (powN n exponent) (some range)) (some min)
  | Gradient.exponential =>
    if n = some 0 then some min
    else if n = some 1 then some max
    else
      let minl := log2N min
      let rangel := subN (log2N max) minl
      exp2N (addN (mulN n rangel) minl)

/-- Modelled from the spec: `decibel.rs`
(`db_to_coeff_clamped_neg_90_db_f32/f64`) is not under `src/`; per the spec
it is "a clamped decibel-to-linear-gain conversion of that value (floor at
-90 dB)": gain `10^(dB/20)`, with inputs at or below `-90` dB clamped to
zero gain. -/
noncomputable def dbToCoeffClampedNeg90Db (db : ℝ) : ℝ :=
  if db ≤ -90 then 0 else (10 : ℝ) ^ (db / 20)

/-- `ParamF32<MAX_BLOCKSIZE>` (src/parameter.rs lines 48-60; `ParamF64`,
lines 307-319, is identical up to precision), embedded over `ℝ`.  The
`Arc<AtomicF32>` cell is modelled by its currently stored value
`sharedNormalized` (the single-threaded view of one load). -/
structure ParamF32 where
  min : ℝ
  max : ℝ
  gradient : Gradient
  unit : Unit
  sharedNormalized : ℝ
  normalized : ℝ
  value : ℝ
  smoothed : Smooth ℝ

/-- `ParamF32::smoothed` (src/parameter.rs lines 153-171): load the shared
normalized value; if it differs from the cached one, re-derive the mapped
(and unit-converted) value and `set()` the smoother; then `process`,
`update_status`, and return the output view together with the successor
state.  (`smoothedCall` because the Rust method and the field share the name
`smoothed`.) -/
noncomputable def ParamF32.smoothedCall (p : ParamF32) (frames : ProcFrames) :
    Option (SmoothOutput ℝ × ParamF32) :=
  let p1 :=
    if p.normalized = p.sharedNormalized then p
    else
      let v := normalizedToValue p.sharedNormalized p.min p.max p.gradient
      let value :=
        match p.unit with
        | Unit.decibels => dbToCoeffClampedNeg90Db v
        | Unit.generic => v
      { p with normalized := p.sharedNormalized, value := value,
               smoothed := p.smoothed.set value }
  match p1.smoothed.process frames with
  | none => none
  | some sm =>
    match sm.updateStatus with
    | none => none
    | some sm2 => some (sm2.outputView, { p1 with smoothed := sm2 })

/-! ## Concrete states used by witnesses and counterexamples -/

/-- An `Active` smoother state over `ℚ` whose first output sample is within
the claimed `1e-4` of the target but not within the actual `SETTLE = 1e-5`:
target `1`, first output sample `0.99995`. -/
def c2CexState : Smooth ℚ :=
  ⟨[19999 / 20000, 0], 1, SmoothStatus.active, 1, 0, 19999 / 20000⟩

/-- An `Active` smoother state over `ℚ` with settled first sample, for the
witness of the amended claim C2. -/
def c2WitnessState : Smooth ℚ :=
  ⟨[1, 0], 1, SmoothStatus.active, 1, 0, 1⟩

/-- A concrete `Active` smoother state over `ℝ` for the witness of claim C3. -/
def c3WitnessState : Smooth ℝ :=
  ⟨[0, 0], 1, SmoothStatus.active, 1, 0, 0⟩

/-- A concrete `Active` smoother state over `ℚ` with a block of four samples,
used by the claim C9 counterexample and the C8/C9 witnesses. -/
def c9CexState : Smooth ℚ :=
  ⟨[0, 0, 0, 0], 1, SmoothStatus.active, 1, 0, 0⟩

/-- A concrete parameter over `ℝ` whose cached normalized value agrees with
the shared cell and whose smoother is `Inactive`, for the witness of claim
C8. -/
noncomputable def c8WitnessParam : ParamF32 :=
  ⟨0, 1, Gradient.linear, Unit.generic, 1 / 2, 1 / 2, 1 / 2,
    ⟨[1 / 2, 1 / 2], 1 / 2, SmoothStatus.inactive, 1, 0, 1 / 2⟩⟩

/-! ## Theorems for claims C1, C4, C5, C7 -/

/-- Propositional form of the lexicographic strict order on `MusicalTime`. -/
theorem MusicalTime.mtLtb_iff (a b : MusicalTime) :
    MusicalTime.ltb a b = true ↔
      (a.beats < b.beats ∨ (a.beats = b.beats ∧ a.super_beats < b.super_beats)) := by
  simp [MusicalTime.ltb]

/-- Propositional form of the lexicographic strict order on `SuperFrames`. -/
theorem SuperFrames.sfLtb_iff (a b : SuperFrames) :
    SuperFrames.ltb a b = true ↔
      (a.seconds < b.seconds ∨ (a.seconds = b.seconds ∧ a.super_frames < b.super_frames)) := by
  simp [SuperFrames.ltb]

/-- Claim C1 (refuted; code bug).  `SuperFrames::from_frames` at the standard
sample rate 44100 and `Frames(44102)` (well below the claimed 10^9 bound):
the source computes `seconds = frames % SR` instead of `frames / SR`, so the
`u64` expression `frames.0 - (seconds * SR)` underflows (last conjunct: a
debug build panics there).  Under release wrapping semantics the result is
`SuperFrames { seconds: 2, super_frames: 3786958336 }` — `super_frames` even
exceeds `SUPER_UNITS` — and the round trip back through
`to_nearest_frame_round` yields `Frames(416929)`, not `Frames(44102)`,
contradicting the claimed exact round trip (and the function's own
documentation that the conversion "IS lossless" at the eight standard rates). -/
theorem c1_from_frames_round_trip_fails :
    SuperFrames.fromFramesConstant 44100 44102 = ⟨2, 3786958336⟩ ∧
    secondsToNearestFrameRound
      (SuperFrames.fromFramesConstant 44100 44102).toSecondsQ 44100 = 416929 ∧
    (416929 : Nat) ≠ 44102 ∧
    44102 < (44102 % 44100) * 44100 := by
  have h : SuperFrames.fromFramesConstant 44100 44102 = ⟨2, 3786958336⟩ := by decide
  refine ⟨h, ?_, by decide, by decide⟩
  rw [h]
  show secondsToNearestFrameRound (((2 : Nat) : ℚ) + ((3786958336 : Nat) : ℚ) / ((SUPER_UNITS : Nat) : ℚ)) 44100 = 416929
  rw [secondsToNearestFrameRound, SUPER_UNITS]
  rw [if_pos (by positivity)]
  norm_num [round_eq]
  decide

/-- Claim C4 (refuted; code bug).  `impl Mul<u32> for MusicalTime` computes
`additional_beats` with `%` instead of `/`, so
`MusicalTime::new(0, 254016000) * 2` produces `super_beats = 508,032,000 =
SUPER_UNITS`, violating the invariant `super_beats ∈ [0, SUPER_UNITS)` that
both the claim and the field's own documentation state.  (No machine-integer
overflow occurs on this input, so debug and release builds agree.) -/
theorem c4_mul_breaks_super_beats_invariant :
    (MusicalTime.mul (MusicalTime.new 0 254016000) 2).super_beats = SUPER_UNITS ∧
    ¬ (MusicalTime.mul (MusicalTime.new 0 254016000) 2).super_beats < SUPER_UNITS := by
  decide

/-- Claim C5 (confirmed).  For operands satisfying the `super_beats`/
`super_frames` field invariant, `MusicalTime::checked_sub` (and likewise
`SuperFrames::checked_sub`) returns `None` exactly when `rhs` is greater than
`self` in the lexicographic order, and otherwise returns `Some` of the exact
borrow-checked difference: the result satisfies the invariant and its total
super-beat (super-frame) value plus `rhs`'s equals `self`'s. -/
theorem c5_checked_sub_none_iff_lt_and_exact :
    (∀ a b : MusicalTime, a.super_beats < SUPER_UNITS → b.super_beats < SUPER_UNITS →
      (a.checkedSub b = none ↔ MusicalTime.ltb a b = true) ∧
      ∀ d, a.checkedSub b = some d →
        d.super_beats < SUPER_UNITS ∧
        d.totalSuperBeats + b.totalSuperBeats = a.totalSuperBeats) ∧
    (∀ a b : SuperFrames, a.super_frames < SUPER_UNITS → b.super_frames < SUPER_UNITS →
      (a.checkedSub b = none ↔ SuperFrames.ltb a b = true) ∧
      ∀ d, a.checkedSub b = some d →
        d.super_frames < SUPER_UNITS ∧
        d.totalSuperFrames + b.totalSuperFrames = a.totalSuperFrames) := by
  constructor
  · intro a b ha hb
    by_cases hlt : MusicalTime.ltb a b = true
    · simp [MusicalTime.checkedSub, hlt]
    · rw [MusicalTime.mtLtb_iff] at hlt
      simp only [MusicalTime.checkedSub, MusicalTime.mtLtb_iff]
      rw [if_neg (by simpa [MusicalTime.mtLtb_iff] using hlt)]
      constructor
      · constructor
        · intro hc
          split at hc <;> simp_all
        · intro hc
          exact absurd hc hlt
      · intro d hd
        split at hd <;>
        · injection hd with hd
          subst hd
          simp only [MusicalTime.totalSuperBeats, SUPER_UNITS] at *
          omega
  · intro a b ha hb
    by_cases hlt : SuperFrames.ltb a b = true
    · simp [SuperFrames.checkedSub, hlt]
    · rw [SuperFrames.sfLtb_iff] at hlt
      simp only [SuperFrames.checkedSub, SuperFrames.sfLtb_iff]
      rw [if_neg (by simpa [SuperFrames.sfLtb_iff] using hlt)]
      constructor
      · constructor
        · intro hc
          split at hc <;> simp_all
        · intro hc
          exact absurd hc hlt
      · intro d hd
        split at hd <;>
        · injection hd with hd
          subst hd
          simp only [SuperFrames.totalSuperFrames, SUPER_UNITS] at *
          omega

/-- Witness for claim C5 at the spec's concrete examples:
`MusicalTime::new(0,0).checked_sub(MusicalTime::new(0,1))` is `None` (by the
theorem's `None`-iff-less characterisation) and
`MusicalTime::new(5,0).checked_sub(MusicalTime::new(3,0))` is
`Some(MusicalTime::new(2,0))`. -/
theorem c5_checked_sub_witness :
    (MusicalTime.new 0 0).checkedSub (MusicalTime.new 0 1) = none ∧
    (MusicalTime.new 5 0).checkedSub (MusicalTime.new 3 0) = some (MusicalTime.new 2 0) ∧
    SuperFrames.checkedSub ⟨5, 0⟩ ⟨3, 0⟩ = some ⟨2, 0⟩ := by
  refine ⟨?_, by decide, by decide⟩
  exact (c5_checked_sub_none_iff_lt_and_exact.1 (MusicalTime.new 0 0)
    (MusicalTime.new 0 1) (by decide) (by decide)).1.mpr (by decide)

set_option maxHeartbeats 1000000 in
/-- The byte-concatenation in `u32x2_to_u64` places `v1` in the low 32 bits
and `v2` in the high 32 bits. -/
theorem u32x2ToU64_eq (a b : Nat) (ha : a < U32) (hb : b < U32) :
    u32x2ToU64 a b = a + 4294967296 * b := by
  simp only [u32x2ToU64, u32ToNeBytes, U32] at *
  omega

set_option maxHeartbeats 1000000 in
/-- The byte split in `u64_to_u32x2` recovers the low and high 32-bit halves. -/
theorem u64ToU32x2_eq (a b : Nat) (ha : a < U32) (hb : b < U32) :
    u64ToU32x2 (a + 4294967296 * b) = (a, b) := by
  simp only [u64ToU32x2, U32, Prod.mk.injEq] at *
  constructor <;> omega

/-- Claim C7 (confirmed).  Packing two `u32` components into the `u64`
atomic word and unpacking is the identity, and consequently
`AtomicMusicalTime::get` after `set` returns the stored `MusicalTime`, and
`swap` returns the previously stored value while storing the new pair. -/
theorem c7_atomic_pack_unpack_identity :
    (∀ a b : Nat, a < U32 → b < U32 → u64ToU32x2 (u32x2ToU64 a b) = (a, b)) ∧
    (∀ t : MusicalTimeTk, t.beats < U32 → t.ticks < SUPER_UNITS →
      AtomicMusicalTime.get (AtomicMusicalTime.set t) = t ∧
      ∀ t2 : MusicalTimeTk,
        AtomicMusicalTime.swap t2 (AtomicMusicalTime.set t) =
          (t, AtomicMusicalTime.set t2)) := by
  have hpack : ∀ a b : Nat, a < U32 → b < U32 → u64ToU32x2 (u32x2ToU64 a b) = (a, b) := by
    intro a b ha hb
    rw [u32x2ToU64_eq a b ha hb, u64ToU32x2_eq a b ha hb]
  refine ⟨hpack, ?_⟩
  intro t hbeats hticks
  have hget : AtomicMusicalTime.get (AtomicMusicalTime.set t) = t := by
    have hU : t.ticks < U32 := by
      have : SUPER_UNITS < U32 := by decide
      omega
    simp only [AtomicMusicalTime.get, AtomicMusicalTime.set, hpack t.beats t.ticks hbeats hU]
    simp only [MusicalTimeTk.new]
    have : Min.min t.ticks (SUPER_UNITS - 1) = t.ticks := by
      have : SUPER_UNITS = 508032000 := rfl
      omega
    rw [this]
  exact ⟨hget, fun t2 => by simp [AtomicMusicalTime.swap, hget]⟩

/-- Witness for claim C7 at the spec's concrete pair
`(beats = 4578749, super_beats = 12390)`. -/
theorem c7_atomic_pack_unpack_witness :
    AtomicMusicalTime.get (AtomicMusicalTime.set ⟨4578749, 12390⟩) = ⟨4578749, 12390⟩ ∧
    AtomicMusicalTime.swap ⟨5720495, 45781⟩ (AtomicMusicalTime.set ⟨4578749, 12390⟩) =
      (⟨4578749, 12390⟩, AtomicMusicalTime.set ⟨5720495, 45781⟩) :=
  ⟨(c7_atomic_pack_unpack_identity.2 ⟨4578749, 12390⟩ (by decide) (by decide)).1,
   (c7_atomic_pack_unpack_identity.2 ⟨4578749, 12390⟩ (by decide) (by decide)).2
     ⟨5720495, 45781⟩⟩

/-! ## Lemmas about the process ramp -/

theorem ramp_length (inp b : α) : ∀ (prev : α) (n : Nat), (ramp inp b prev n).length = n := by
  intro prev n
  induction n generalizing prev with
  | zero => rfl
  | succ k ih => simp [ramp, ih]

theorem ramp_ne_nil (inp b prev : α) (n : Nat) (h : 1 ≤ n) :
    ramp inp b prev n ≠ [] := by
  have := ramp_length inp b prev n
  intro hnil
  rw [hnil] at this
  simp at this
  omega

theorem ramp_getElem?_zero (inp b prev : α) (n : Nat) (h : 1 ≤ n) :
    (ramp inp b prev n)[0]? = some (inp + prev * b) := by
  cases n with
  | zero => omega
  | succ k => simp [ramp]

theorem ramp_getElem?_succ (inp b : α) :
    ∀ (prev : α) (n i : Nat), i + 1 < n →
      (ramp inp b prev n)[i + 1]? =
        ((ramp inp b prev n)[i]?).map (fun y => inp + y * b) := by
  intro prev n
  induction n generalizing prev with
  | zero => intro i h; omega
  | succ k ih =>
    intro i h
    cases i with
    | zero =>
      simp only [ramp]
      rw [List.getElem?_cons_succ, List.getElem?_cons_zero,
        ramp_getElem?_zero inp b _ k (by omega)]
      rfl
    | succ j =>
      simp only [ramp]
      rw [List.getElem?_cons_succ, List.getElem?_cons_succ]
      exact ih _ j (by omega)

theorem getElem?_length_sub_one_eq_getLastD {β : Type} (l : List β) (d : β) (h : l ≠ []) :
    l[l.length - 1]? = some (l.getLastD d) := by
  rw [← List.getLast?_eq_getElem?, List.getLastD_eq_getLast?]
  cases hl : l.getLast? with
  | none => exact absurd (List.getLast?_eq_none_iff.mp hl) h
  | some x => rfl

/-- `process` is a no-op whenever the status is not `Active`
(src/smooth.rs lines 125-127). -/
theorem process_of_not_active (s : Smooth α) (pf : ProcFrames)
    (h : s.status ≠ SmoothStatus.active) : s.process pf = some s := by
  unfold Smooth.process
  rw [if_pos h]

/-- `update_status` leaves an `Inactive` smoother unchanged
(src/smooth.rs line 118, the `_ => ()` arm). -/
theorem updateStatus_of_inactive (s : Smooth α)
    (h : s.status = SmoothStatus.inactive) : s.updateStatus = some s := by
  obtain ⟨out, inp, st, a, b, lo⟩ := s
  simp only at h
  subst h
  rfl

/-! ## Theorems for claims C2, C3, C8, C9, C10 -/

/-- Claim C2, counterexample.  An `Active` smoother whose first output sample
is within the claimed absolute epsilon `1e-4` of the target (the gap is
`5e-5`) is NOT snapped and set to `Deactivating` by `update_status()`: the
actual threshold `SETTLE` is `1e-5`, so the state is left `Active` and
unchanged. -/
theorem c2_settle_epsilon_counterexample :
    c2CexState.status = SmoothStatus.active ∧
    c2CexState.output[0]? = some (19999 / 20000) ∧
    |c2CexState.input - 19999 / 20000| < 1 / 10000 ∧
    c2CexState.updateStatus = some c2CexState ∧
    Option.map Smooth.status c2CexState.updateStatus ≠ some SmoothStatus.deactivating := by
  have hupd : c2CexState.updateStatus = some c2CexState := by
    simp only [Smooth.updateStatus, Smooth.updateStatusWithEpsilon, c2CexState]
    rw [if_neg (by norm_num [SETTLE, abs_of_pos])]
  refine ⟨rfl, rfl, by norm_num [c2CexState, abs_of_pos], hupd, ?_⟩
  rw [hupd]
  simp [c2CexState]

/-- Claim C2 as amended (the settle epsilon is `SETTLE = 1e-5`, and the
64-bit path uses the same value, not a tighter one).  For an `Active`
smoother: if the first output sample is within `SETTLE` of the target,
`update_status` snaps the state exactly to the target — `input`,
`last_output` and the whole output block become the target, the coefficients
`a`, `b` are preserved — and sets status `Deactivating`; otherwise it leaves
the state unchanged.  A `Deactivating` smoother moves to `Inactive` on the
next call, so consumers observe exactly one more non-inactive block. -/
theorem c2_settle_amended (s : Smooth ℚ) (o0 : ℚ) (rest : List ℚ)
    (hout : s.output = o0 :: rest) (hact : s.status = SmoothStatus.active) :
    (|s.input - o0| < SETTLE →
      s.updateStatus = some { s.reset s.input with status := SmoothStatus.deactivating } ∧
      (s.reset s.input).input = s.input ∧
      (s.reset s.input).lastOutput = s.input ∧
      (s.reset s.input).output = List.replicate s.output.length s.input ∧
      (s.reset s.input).a = s.a ∧ (s.reset s.input).b = s.b) ∧
    (¬ |s.input - o0| < SETTLE → s.updateStatus = some s) ∧
    (∀ u : Smooth ℚ, u.status = SmoothStatus.deactivating →
      u.updateStatus = some { u with status := SmoothStatus.inactive }) := by
  obtain ⟨out, inp, st, a, b, lo⟩ := s
  simp only at hout hact
  subst hout hact
  refine ⟨?_, ?_, ?_⟩
  · intro h
    refine ⟨?_, rfl, rfl, rfl, rfl, rfl⟩
    simp only [Smooth.updateStatus, Smooth.updateStatusWithEpsilon]
    rw [if_pos (by simpa using h)]
  · intro h
    simp only [Smooth.updateStatus, Smooth.updateStatusWithEpsilon]
    rw [if_neg (by simpa using h)]
  · intro u hu
    obtain ⟨uout, uinp, ust, ua, ub, ulo⟩ := u
    simp only at hu
    subst hu
    rfl

/-- Witness for the amended claim C2: a concrete `Active` state whose first
sample equals the target is snapped and set to `Deactivating`, and a
`Deactivating` state moves to `Inactive`. -/
theorem c2_settle_amended_witness :
    c2WitnessState.updateStatus =
      some { c2WitnessState.reset c2WitnessState.input with
             status := SmoothStatus.deactivating } ∧
    (⟨[1, 0], 1, SmoothStatus.deactivating, 1, 0, 1⟩ : Smooth ℚ).updateStatus =
      some (⟨[1, 0], 1, SmoothStatus.inactive, 1, 0, 1⟩ : Smooth ℚ) :=
  ⟨((c2_settle_amended c2WitnessState 1 [0] rfl rfl).1 (by norm_num [c2WitnessState, SETTLE])).1,
   (c2_settle_amended c2WitnessState 1 [0] rfl rfl).2.2
     ⟨[1, 0], 1, SmoothStatus.deactivating, 1, 0, 1⟩ rfl⟩

/-- Claim C3 (confirmed).  For an `Active` smoother and a requested frame
count `n` with `1 ≤ n ≤ MAX_BLOCKSIZE`: `process` fills
`out[0] = target * a + last_output * b`, `out[i] = target * a + out[i-1] * b`
for `1 ≤ i < n`, and stores `out[n-1]` as the new `last_output` (carried into
the next block, which starts from `last_output` again); and `set_speed` sets
`b = exp(-1 / (seconds * sample_rate))` and `a = 1 - b`. -/
theorem c3_process_one_pole (s : Smooth ℝ) (pf : ProcFrames)
    (hact : s.status = SmoothStatus.active)
    (h1 : 1 ≤ pf.val) (hle : pf.val ≤ s.output.length) :
    (∃ t, s.process pf = some t ∧
      t.output[0]? = some (s.input * s.a + s.lastOutput * s.b) ∧
      (∀ i, 1 ≤ i → i < pf.val →
        t.output[i]? = (t.output[i - 1]?).map (fun y => s.input * s.a + y * s.b)) ∧
      t.output[pf.val - 1]? = some t.lastOutput) ∧
    ∀ sampleRate seconds : ℝ,
      (s.setSpeed sampleRate seconds).b = Real.exp (-1 / (seconds * sampleRate)) ∧
      (s.setSpeed sampleRate seconds).a = 1 - Real.exp (-1 / (seconds * sampleRate)) := by
  have hmin : pf.compilerHintFrames s.output.length = pf.val := by
    simp [ProcFrames.compilerHintFrames, Nat.min_eq_left hle]
  have hyslen : (ramp (s.input * s.a) s.b s.lastOutput pf.val).length = pf.val :=
    ramp_length _ _ _ _
  have hysne : ramp (s.input * s.a) s.b s.lastOutput pf.val ≠ [] :=
    ramp_ne_nil _ _ _ _ h1
  have hproc : s.process pf = some { s with
      output := ramp (s.input * s.a) s.b s.lastOutput pf.val ++ s.output.drop pf.val,
      lastOutput := (ramp (s.input * s.a) s.b s.lastOutput pf.val).getLastD s.lastOutput } := by
    unfold Smooth.process
    rw [if_neg (by simp [hact])]
    simp only [hmin]
    rw [if_neg (by omega)]
  constructor
  · refine ⟨_, hproc, ?_, ?_, ?_⟩
    · show (ramp (s.input * s.a) s.b s.lastOutput pf.val ++ s.output.drop pf.val)[0]? = _
      rw [List.getElem?_append_left (by omega)]
      exact ramp_getElem?_zero _ _ _ _ h1
    · intro i hi1 hi2
      obtain ⟨j, rfl⟩ : ∃ j, i = j + 1 := ⟨i - 1, by omega⟩
      show (ramp (s.input * s.a) s.b s.lastOutput pf.val ++ s.output.drop pf.val)[j + 1]? = _
      rw [List.getElem?_append_left (by omega), List.getElem?_append_left (by omega)]
      simpa using ramp_getElem?_succ (s.input * s.a) s.b s.lastOutput pf.val j hi2
    · show (ramp (s.input * s.a) s.b s.lastOutput pf.val ++ s.output.drop pf.val)[pf.val - 1]? = _
      rw [List.getElem?_append_left (by omega)]
      have := getElem?_length_sub_one_eq_getLastD
        (ramp (s.input * s.a) s.b s.lastOutput pf.val) s.lastOutput hysne
      rw [hyslen] at this
      exact this
  · intro sampleRate seconds
    exact ⟨rfl, rfl⟩

/-- Witness for claim C3 at a concrete `Active` state (target `1`,
`a = 1`, `b = 0`, block size `2`) and requested frame count `2`. -/
theorem c3_process_one_pole_witness :
    (∃ t, c3WitnessState.process ⟨2⟩ = some t ∧
      t.output[0]? = some (c3WitnessState.input * c3WitnessState.a +
        c3WitnessState.lastOutput * c3WitnessState.b) ∧
      (∀ i, 1 ≤ i → i < (2 : Nat) →
        t.output[i]? = (t.output[i - 1]?).map
          (fun y => c3WitnessState.input * c3WitnessState.a + y * c3WitnessState.b)) ∧
      t.output[2 - 1]? = some t.lastOutput) ∧
    ∀ sampleRate seconds : ℝ,
      (c3WitnessState.setSpeed sampleRate seconds).b =
        Real.exp (-1 / (seconds * sampleRate)) ∧
      (c3WitnessState.setSpeed sampleRate seconds).a =
        1 - Real.exp (-1 / (seconds * sampleRate)) :=
  c3_process_one_pole c3WitnessState ⟨2⟩ rfl (by decide) (by decide)

/-- Claim C8 (confirmed).  While a smoother is `Inactive` (and for `Param`,
no change of the shared normalized value intervenes), `process` is a no-op,
`update_status` keeps the status `Inactive`, and `ParamF32::smoothed` returns
the unchanged constant output with status `Inactive` together with an
unchanged parameter state — hence repeated calls return the same view every
time. -/
theorem c8_inactive_smoothed_idempotent (p : ParamF32) (pf : ProcFrames)
    (hsync : p.normalized = p.sharedNormalized)
    (hin : p.smoothed.status = SmoothStatus.inactive) :
    p.smoothed.process pf = some p.smoothed ∧
    p.smoothed.updateStatus = some p.smoothed ∧
    p.smoothedCall pf = some (⟨p.smoothed.output, SmoothStatus.inactive⟩, p) := by
  have hproc : p.smoothed.process pf = some p.smoothed :=
    process_of_not_active _ _ (by simp [hin])
  have hupd : p.smoothed.updateStatus = some p.smoothed :=
    updateStatus_of_inactive _ hin
  refine ⟨hproc, hupd, ?_⟩
  unfold ParamF32.smoothedCall
  rw [if_pos hsync]
  simp only [hproc, hupd]
  simp [Smooth.outputView, hin]

/-- Witness for claim C8 at a concrete parameter whose cached and shared
normalized values agree and whose smoother is `Inactive`. -/
theorem c8_inactive_smoothed_idempotent_witness :
    c8WitnessParam.smoothed.process ⟨64⟩ = some c8WitnessParam.smoothed ∧
    c8WitnessParam.smoothed.updateStatus = some c8WitnessParam.smoothed ∧
    c8WitnessParam.smoothedCall ⟨64⟩ =
      some (⟨c8WitnessParam.smoothed.output, SmoothStatus.inactive⟩, c8WitnessParam) :=
  c8_inactive_smoothed_idempotent c8WitnessParam ⟨64⟩ rfl rfl

/-- Claim C9, counterexample.  With a requested frame count of `0` and an
`Active` smoother, `process` panics (`none`): in a debug build the `usize`
subtraction `frames - 1` overflows, in release the subsequent
`output[frames - 1]` access reads index `2^64 - 1`, far beyond
`MAX_BLOCKSIZE`.  So "for every requested frame count ... never accesses an
output index at or beyond MAX_BLOCKSIZE and never panics" is false as
stated. -/
theorem c9_zero_frames_counterexample :
    c9CexState.status = SmoothStatus.active ∧
    (ProcFrames.fromUsize 0).val = 0 ∧
    c9CexState.process (ProcFrames.fromUsize 0) = none :=
  ⟨rfl, rfl, rfl⟩

/-- Claim C9 as amended (restricted to requested frame counts whose clamped
value is at least `1`).  `ProcFrames::new` clamps its argument to
`[0, MAX_BLOCKSIZE]`; `compiler_hint_frames` is at most `MAX_BLOCKSIZE` for
every `ProcFrames` (also those built by the unclamped `From` conversions);
and whenever the clamped frame count is at least `1`, `process` succeeds (no
panic), preserves the output block length, and writes only indices strictly
below the clamped count — every index at or above it is unchanged. -/
theorem c9_no_overrun_amended :
    (∀ maxBlocksize frames : Nat,
      (ProcFrames.new maxBlocksize frames).val = Min.min frames maxBlocksize ∧
      (ProcFrames.new maxBlocksize frames).val ≤ maxBlocksize) ∧
    (∀ (maxBlocksize : Nat) (pf : ProcFrames),
      pf.compilerHintFrames maxBlocksize ≤ maxBlocksize) ∧
    (∀ (α : Type) (inst : LinearOrderedField α) (s : Smooth α) (pf : ProcFrames),
      1 ≤ pf.compilerHintFrames s.output.length →
      ∃ t, s.process pf = some t ∧
        t.output.length = s.output.length ∧
        ∀ i, pf.compilerHintFrames s.output.length ≤ i →
          t.output[i]? = s.output[i]?) := by
  refine ⟨fun maxBlocksize frames => ⟨rfl, Nat.min_le_right _ _⟩,
    fun maxBlocksize pf => Nat.min_le_right _ _, ?_⟩
  intro α inst s pf h1
  by_cases hact : s.status = SmoothStatus.active
  · have hfle : pf.compilerHintFrames s.output.length ≤ s.output.length :=
      Nat.min_le_right _ _
    have hyslen := ramp_length (s.input * s.a) s.b s.lastOutput
      (pf.compilerHintFrames s.output.length)
    have hproc : s.process pf = some { s with
        output := ramp (s.input * s.a) s.b s.lastOutput
            (pf.compilerHintFrames s.output.length) ++
          s.output.drop (pf.compilerHintFrames s.output.length),
        lastOutput := (ramp (s.input * s.a) s.b s.lastOutput
          (pf.compilerHintFrames s.output.length)).getLastD s.lastOutput } := by
      unfold Smooth.process
      rw [if_neg (by simp [hact])]
      rw [if_neg (by omega)]
    refine ⟨_, hproc, ?_, ?_⟩
    · simp only [List.length_append, hyslen, List.length_drop]
      omega
    · intro i hi
      show (ramp (s.input * s.a) s.b s.lastOutput _ ++ s.output.drop _)[i]? = _
      rw [List.getElem?_append_right (by omega), hyslen, List.getElem?_drop]
      congr 1
      omega
  · exact ⟨s, process_of_not_active s pf hact, rfl, fun i _ => rfl⟩

/-- Witness for the amended claim C9: a concrete `Active` state with block
size `4` and requested count `2`. -/
theorem c9_no_overrun_amended_witness :
    1 ≤ (ProcFrames.fromUsize 2).compilerHintFrames c9CexState.output.length ∧
    ∃ t, c9CexState.process (ProcFrames.fromUsize 2) = some t ∧
      t.output.length = c9CexState.output.length ∧
      ∀ i, (ProcFrames.fromUsize 2).compilerHintFrames c9CexState.output.length ≤ i →
        t.output[i]? = c9CexState.output[i]? :=
  ⟨by decide,
   c9_no_overrun_amended.2.2 ℚ inferInstance c9CexState (ProcFrames.fromUsize 2) (by decide)⟩

/-- Claim C10 (confirmed).  `reset(v)` sets the target (`input`),
`last_output`, and every element of the output block to `v`, sets the status
to `Inactive`, and leaves the smoothing coefficients `a`, `b` (configured by
`set_speed`) unchanged. -/
theorem c10_reset_preserves_speed (α : Type) (inst : LinearOrderedField α)
    (s : Smooth α) (v : α) :
    (s.reset v).input = v ∧
    (s.reset v).lastOutput = v ∧
    (s.reset v).status = SmoothStatus.inactive ∧
    (s.reset v).output = List.replicate s.output.length v ∧
    (∀ x ∈ (s.reset v).output, x = v) ∧
    (s.reset v).a = s.a ∧ (s.reset v).b = s.b :=
  ⟨rfl, rfl, rfl, rfl, fun x hx => List.eq_of_mem_replicate hx, rfl, rfl⟩

/-! ## Theorems for claim C6 -/

/-- Claim C6, counterexample.  For the `Exponential` gradient the claim
fails when `min` is not positive: with `min = -2`, `max = 4` and `v = 1`
strictly inside `(min, max)`, `value_to_normalized` computes
`log2(-2) = NaN` and returns `NaN` (`none`); `normalized_to_value` then
clamps that `NaN` to `1.0` (the `f32` `min`/`max` ignore a NaN operand) and
the `normalized == 1.0` endpoint case returns `max = 4`.  The round trip is
`4`, which is `3` away from `v = 1`, far beyond the claimed
`1e-6 * (max - min) = 6e-6` bound. -/
theorem c6_curve_inverse_counterexample :
    (-2 : ℝ) < 1 ∧ (1 : ℝ) < 4 ∧
    valueToNormalizedN 1 (-2) 4 Gradient.exponential = none ∧
    normalizedToValueN (valueToNormalizedN 1 (-2) 4 Gradient.exponential) (-2) 4
      Gradient.exponential = some 4 ∧
    ¬ |(4 : ℝ) - 1| < (1 / 1000000) * (4 - (-2)) := by
  have hlneg : log2N (-2) = none := by
    unfold log2N
    rw [if_neg (by norm_num)]
  have hl1 : log2N 1 = some (Real.logb 2 1) := by
    unfold log2N
    rw [if_pos (by norm_num)]
  have hl4 : log2N 4 = some (Real.logb 2 4) := by
    unfold log2N
    rw [if_pos (by norm_num)]
  have hv2n : valueToNormalizedN 1 (-2) 4 Gradient.exponential = none := by
    simp only [valueToNormalizedN]
    rw [if_neg (by norm_num), if_neg (by norm_num), hlneg, hl1, hl4]
    rfl
  have hn2v : normalizedToValueN none (-2) 4 Gradient.exponential = some 4 := by
    simp only [normalizedToValueN, minF, maxF]
    rw [max_eq_left (by norm_num : (0 : ℝ) ≤ 1)]
    rw [if_neg (by simp), if_pos rfl]
  refine ⟨by norm_num, by norm_num, hv2n, by rw [hv2n]; exact hn2v, ?_⟩
  rw [show |(4 : ℝ) - 1| = 3 by rw [show (4 : ℝ) - 1 = 3 by ring, abs_of_pos] <;> norm_num]
  norm_num

/-- Claim C6 as amended: the inverse law additionally needs `0 < min` for the
`Exponential` gradient (the curve takes `log2 min`, which is `NaN` for a
negative `min`, and the NaN-ignoring clamp then sends the round trip to
`max`); it holds for `Linear`, for `Power(k)` with any `0 < k` (covering the
claimed `k ∈ {0.5, 2, 3}`), and for `Exponential` with `0 < min`.  On that
domain every intermediate value is finite, and for every `v` strictly inside
`(min, max)` the round trip is exact over the reals, hence within the
claimed `1e-6 * (max - min)`; and `value_to_normalized` clamps on the way
in: `0` for `v ≤ min`, `1` for `v ≥ max`. -/
theorem c6_curve_inverse_amended (min max v : ℝ) (g : Gradient)
    (hdom : gradientDomainOK min g) (h1 : min < v) (h2 : v < max) :
    (∃ rt : ℝ,
      normalizedToValueN (valueToNormalizedN v min max g) min max g = some rt ∧
      |rt - v| < (1 / 1000000) * (max - min)) ∧
    (∀ w, w ≤ min → valueToNormalizedN w min max g = some 0) ∧
    (∀ w, max ≤ w → valueToNormalizedN w min max g = some 1) := by
  have hrange : (0 : ℝ) < max - min := by linarith
  have hx0 : 0 < (v - min) / (max - min) := div_pos (by linarith) hrange
  have hx1 : (v - min) / (max - min) < 1 := (div_lt_one hrange).mpr (by linarith)
  have hclampN : ∀ y : ℝ, 0 ≤ y → y ≤ 1 →
      maxF (minF (some y) (some 1)) (some 0) = some y := by
    intro y hy0 hy1
    simp only [minF, maxF]
    rw [min_eq_left hy1, max_eq_left hy0]
  have hexact : normalizedToValueN (valueToNormalizedN v min max g) min max g
      = some v := by
    cases g with
    | linear =>
      have hval : valueToNormalizedN v min max Gradient.linear =
          some ((v - min) / (max - min)) := by
        simp only [valueToNormalizedN]
        rw [if_neg (by linarith), if_neg (by linarith)]
      rw [hval]
      simp only [normalizedToValueN]
      rw [hclampN _ hx0.le hx1.le]
      simp only [mulN, addN]
      rw [div_mul_cancel₀ _ (ne_of_gt hrange), sub_add_cancel]
    | power exponent =>
      have hk : (0 : ℝ) < exponent := hdom
      have hval : valueToNormalizedN v min max (Gradient.power exponent) =
          some (((v - min) / (max - min)) ^ ((1 : ℝ) / exponent)) := by
        simp only [valueToNormalizedN]
        rw [if_neg (by linarith), if_neg (by linarith)]
        simp only [powN]
        rw [if_neg (not_lt.mpr hx0.le)]
      have hy0 : 0 < ((v - min) / (max - min)) ^ ((1 : ℝ) / exponent) :=
        Real.rpow_pos_of_pos hx0 _
      have hy1 : ((v - min) / (max - min)) ^ ((1 : ℝ) / exponent) < 1 :=
        Real.rpow_lt_one hx0.le hx1 (by positivity)
      rw [hval]
      simp only [normalizedToValueN]
      rw [hclampN _ hy0.le hy1.le]
      simp only [powN]
      rw [if_neg (not_lt.mpr hy0.le)]
      simp only [mulN, addN]
      rw [← Real.rpow_mul hx0.le, one_div_mul_cancel (ne_of_gt hk), Real.rpow_one,
        div_mul_cancel₀ _ (ne_of_gt hrange), sub_add_cancel]
    | exponential =>
      have hmin : (0 : ℝ) < min := hdom
      have hv : (0 : ℝ) < v := lt_trans hmin h1
      have hmax : (0 : ℝ) < max := lt_trans hv h2
      have hlv : Real.logb 2 min < Real.logb 2 v :=
        Real.logb_lt_logb one_lt_two hmin h1
      have hvm : Real.logb 2 v < Real.logb 2 max :=
        Real.logb_lt_logb one_lt_two hv h2
      have hLpos : (0 : ℝ) < Real.logb 2 max - Real.logb 2 min := by linarith
      have hval : valueToNormalizedN v min max Gradient.exponential =
          some ((Real.logb 2 v - Real.logb 2 min) /
            (Real.logb 2 max - Real.logb 2 min)) := by
        simp only [valueToNormalizedN]
        rw [if_neg (by linarith), if_neg (by linarith)]
        simp only [log2N]
        rw [if_pos hmin, if_pos hv, if_pos hmax]
        simp only [subN, divN]
        rw [if_neg (ne_of_gt hLpos)]
      have hn0 : 0 < (Real.logb 2 v - Real.logb 2 min) /
          (Real.logb 2 max - Real.logb 2 min) := div_pos (by linarith) hLpos
      have hn1 : (Real.logb 2 v - Real.logb 2 min) /
          (Real.logb 2 max - Real.logb 2 min) < 1 :=
        (div_lt_one hLpos).mpr (by linarith)
      rw [hval]
      simp only [normalizedToValueN]
      rw [hclampN _ hn0.le hn1.le]
      rw [if_neg (by simpa using ne_of_gt hn0), if_neg (by simpa using ne_of_lt hn1)]
      simp only [log2N]
      rw [if_pos hmin, if_pos hmax]
      simp only [subN, mulN, addN, exp2N]
      rw [div_mul_cancel₀ _ (ne_of_gt hLpos), sub_add_cancel]
      exact congrArg some (Real.rpow_logb (by norm_num) (by norm_num) hv)
  refine ⟨⟨v, hexact, ?_⟩, ?_, ?_⟩
  · rw [sub_self, abs_zero]
    exact mul_pos (by norm_num) hrange
  · intro w hw
    simp only [valueToNormalizedN]
    rw [if_pos hw]
  · intro w hw
    simp only [valueToNormalizedN]
    rw [if_neg (by linarith), if_pos hw]

/-- Witness for the amended claim C6: the `Linear` gradient on `[0, 1]` at
`v = 1/2`. -/
theorem c6_curve_inverse_amended_witness :
    (∃ rt : ℝ,
      normalizedToValueN (valueToNormalizedN (1 / 2) 0 1 Gradient.linear) 0 1
        Gradient.linear = some rt ∧
      |rt - 1 / 2| < (1 / 1000000) * (1 - 0)) ∧
    (∀ w, w ≤ (0 : ℝ) → valueToNormalizedN w 0 1 Gradient.linear = some 0) ∧
    (∀ w, (1 : ℝ) ≤ w → valueToNormalizedN w 0 1 Gradient.linear = some 1) :=
  c6_curve_inverse_amended 0 1 (1 / 2) Gradient.linear trivial (by norm_num) (by norm_num)

end MeadowlarkCore
